import Mathlib

/-!
Shallow embedding of the `dopri` package: an adaptive integrator of systems of
ordinary differential equations based on the Dormand–Prince 5(4) embedded
Runge–Kutta method, together with its configuration (`Config`, `New`) and
work statistics (`Stats`).

The embedding is over exact rationals.  Two primitives of the source are
specific to binary floating point and have no rational counterpart:
`math.Pow(q, 1/5)` (the fifth root used by the step-size controller) and
`epsilon(x)` (distance from `|x|` to the next representable float).  They are
abstracted as the two fields of an `Env`; every theorem below quantifies over
the environment, and concrete witnesses instantiate it with explicit
functions.  Everything else is translated statement by statement from the
source.  The two unbounded `for` loops of `ComputeWithStats` are given
explicit fuel and return `none` when the fuel runs out; the source loops have
no such bound, so all run-level theorems are stated for runs that complete.
-/

namespace dopri

/-- Model of the floating-point-specific primitives used by the integrator:
`powFifth q` stands for `math.Pow(q, 0.2)` and `eps x` for the source's
`epsilon(x) = math.Nextafter(|x|, |x|+1) - |x|`. -/
structure Env where
  powFifth : ℚ → ℚ
  eps : ℚ → ℚ

/-- Work statistics of one integration run (`stats.go`). -/
structure Stats where
  Evaluations : ℕ
  Rejections : ℕ
  Steps : ℕ
deriving Repr, DecidableEq

/-- Configuration of an integrator (`config.go`). -/
structure Config where
  TryStep : ℚ
  MaxStep : ℚ
  AbsError : ℚ
  RelError : ℚ
deriving Repr, DecidableEq

/-- `Config.verify` from `config.go`: `some msg` models returning that error,
`none` models returning `nil`. -/
def Config.verify (c : Config) : Option String :=
  if c.TryStep < 0 then some ("the initial step should be nonnegative")
  else if c.MaxStep < 0 then some ("the maximal step should be nonnegative")
  else if c.AbsError ≤ 0 then some ("the absolute error tolerance should be positive")
  else if c.RelError ≤ 0 then some ("the relative error tolerance should be positive")
  else none

/-- The four error messages `Config.verify` can produce. -/
def configErrorMessages : List String :=
  ["the initial step should be nonnegative",
   "the maximal step should be nonnegative",
   "the absolute error tolerance should be positive",
   "the relative error tolerance should be positive"]

/-- An integrator holds a verified configuration. -/
structure Integrator where
  config : Config
deriving Repr, DecidableEq

/-- `New` from `dopri.go`: fails with the verification error, or stores the
configuration. -/
def New (config : Config) : Except String Integrator :=
  match config.verify with
  | some e => .error e
  | none => .ok ⟨config⟩

/-- The error message of a step-size underflow in `ComputeWithStats`. -/
def underflowMsg : String := "encountered a step-size underflow"

/- The Dormand–Prince coefficients, named as in `ComputeWithStats`. -/

def c2 : ℚ := 1/5
def c3 : ℚ := 3/10
def c4 : ℚ := 4/5
def c5 : ℚ := 8/9

def a21 : ℚ := 1/5
def a31 : ℚ := 3/40
def a32 : ℚ := 9/40
def a41 : ℚ := 44/45
def a42 : ℚ := -56/15
def a43 : ℚ := 32/9
def a51 : ℚ := 19372/6561
def a52 : ℚ := -25360/2187
def a53 : ℚ := 64448/6561
def a54 : ℚ := -212/729
def a61 : ℚ := 9017/3168
def a62 : ℚ := -355/33
def a63 : ℚ := 46732/5247
def a64 : ℚ := 49/176
def a65 : ℚ := -5103/18656
def a71 : ℚ := 35/384
def a73 : ℚ := 500/1113
def a74 : ℚ := 125/192
def a75 : ℚ := -2187/6784
def a76 : ℚ := 11/84

def e1 : ℚ := 71/57600
def e3 : ℚ := -71/16695
def e4 : ℚ := 71/1920
def e5 : ℚ := -17253/339200
def e6 : ℚ := 22/525
def e7 : ℚ := -1/40

/-- The stage values of one trial step: the six new derivative evaluations,
the fifth-order solution estimate `ynew` and the endpoint `xnew`.  The first
stage `f1` is carried over by the caller (FSAL). -/
structure Trial where
  xnew : ℚ
  ynew : List ℚ
  f2 : List ℚ
  f3 : List ℚ
  f4 : List ℚ
  f5 : List ℚ
  f6 : List ℚ
  f7 : List ℚ
deriving Repr, DecidableEq

/-- One trial step of `ComputeWithStats` (Steps 1–6 and the FSAL evaluation):
`dydx` is the caller's derivative function, modelled as returning the buffer
it fills. -/
def trial (dydx : ℚ → List ℚ → List ℚ) (x h : ℚ) (y f1 : List ℚ) (nd : ℕ) : Trial :=
  let z := (List.range nd).map fun i => y.getD i 0 + h * (a21 * f1.getD i 0)
  let f2 := dydx (x + c2 * h) z
  let z := (List.range nd).map fun i =>
    y.getD i 0 + h * (a31 * f1.getD i 0 + a32 * f2.getD i 0)
  let f3 := dydx (x + c3 * h) z
  let z := (List.range nd).map fun i =>
    y.getD i 0 + h * (a41 * f1.getD i 0 + a42 * f2.getD i 0 + a43 * f3.getD i 0)
  let f4 := dydx (x + c4 * h) z
  let z := (List.range nd).map fun i =>
    y.getD i 0 + h * (a51 * f1.getD i 0 + a52 * f2.getD i 0 + a53 * f3.getD i 0 +
      a54 * f4.getD i 0)
  let f5 := dydx (x + c5 * h) z
  let z := (List.range nd).map fun i =>
    y.getD i 0 + h * (a61 * f1.getD i 0 + a62 * f2.getD i 0 + a63 * f3.getD i 0 +
      a64 * f4.getD i 0 + a65 * f5.getD i 0)
  let f6 := dydx (x + h) z
  let ynew := (List.range nd).map fun i =>
    y.getD i 0 + h * (a71 * f1.getD i 0 + a73 * f3.getD i 0 + a74 * f4.getD i 0 +
      a75 * f5.getD i 0 + a76 * f6.getD i 0)
  let xnew := x + h
  let f7 := dydx xnew ynew
  ⟨xnew, ynew, f2, f3, f4, f5, f6, f7⟩

/-- The body of the error loop of `ComputeWithStats` for component `i`:
the blended scale, the embedded-pair error combination, and the scaled
per-component error. -/
def errTerm (threshold h : ℚ) (y ynew f1 f3 f4 f5 f6 f7 : List ℚ) (i : ℕ) : ℚ :=
  let scale := y.getD i 0
  let scale := if scale < 0 then -scale else scale
  let yn := ynew.getD i 0
  let scale :=
    if yn > 0 then (if yn > scale then yn else scale)
    else (if -yn > scale then -yn else scale)
  let scale := if scale < threshold then threshold else scale
  let e := e1 * f1.getD i 0 + e3 * f3.getD i 0 + e4 * f4.getD i 0 +
    e5 * f5.getD i 0 + e6 * f6.getD i 0 + e7 * f7.getD i 0
  let e := if e < 0 then -e else e
  h * e / scale

/-- The relative-error loop of `ComputeWithStats`: running maximum of the
per-component errors, starting from `ε = 0`. -/
def errorEstimate (threshold h : ℚ) (y ynew f1 f3 f4 f5 f6 f7 : List ℚ) (nd : ℕ) : ℚ :=
  (List.range nd).foldl
    (fun ε i =>
      let e := errTerm threshold h y ynew f1 f3 f4 f5 f6 f7 i
      if e > ε then e else ε) 0

/-- The step-shrinking of a rejected step in `ComputeWithStats`: halve after a
repeated rejection, otherwise shrink proportionally but by no more than a
factor of 10; finally clamp up to `hmin`. -/
def shrinkH (env : Env) (relerr hmin : ℚ) (rejected : Bool) (ε h : ℚ) : ℚ :=
  let h1 :=
    if rejected then 0.5 * h
    else
      let scale := 0.8 * env.powFifth (relerr / ε)
      if scale > 0.1 then scale * h else 0.1 * h
  if h1 < hmin then hmin else h1

/-- Result of the inner rejection loop: either a step got accepted (carrying
the stage values, the error estimate `ε`, the accepted step size, the `done`
and `rejected` flags and the updated statistics), or the step size underflowed
(the source returns `nil, nil, stats, error` there). -/
inductive InnerResult where
  | accepted (t : Trial) (ε h : ℚ) (done rejected : Bool) (stats : Stats)
  | underflow (stats : Stats)
deriving Repr, DecidableEq

/-- The inner rejection loop of `ComputeWithStats` (`for { ... }`): attempt a
trial step, accept it if `ε ≤ relerr`, otherwise count the rejection, fail on
underflow, or shrink the step and retry.  `fuel` bounds the number of trials;
the source loop is unbounded. -/
def innerLoop (dydx : ℚ → List ℚ → List ℚ) (env : Env) (threshold relerr : ℚ)
    (x : ℚ) (y f1 : List ℚ) (nd : ℕ) (hmin : ℚ) :
    ℚ → Bool → Bool → Stats → ℕ → Option InnerResult
  | _, _, _, _, 0 => none
  | h, done, rejected, stats, fuel + 1 =>
    let t := trial dydx x h y f1 nd
    let stats1 : Stats := ⟨stats.Evaluations + 6, stats.Rejections, stats.Steps⟩
    let ε := errorEstimate threshold h y t.ynew f1 t.f3 t.f4 t.f5 t.f6 t.f7 nd
    if ε ≤ relerr then some (.accepted t ε h done rejected stats1)
    else
      let stats2 : Stats := ⟨stats1.Evaluations, stats1.Rejections + 1, stats1.Steps⟩
      if h ≤ hmin then some (.underflow stats2)
      else innerLoop dydx env threshold relerr x y f1 nd hmin
        (shrinkH env relerr hmin rejected ε h) false true stats2 fuel

/- The quartic dense-output coefficients, named as in `interpolate`. -/

def c11 : ℚ := 1
def c12 : ℚ := -183/64
def c13 : ℚ := 37/12
def c14 : ℚ := -145/128
def c32 : ℚ := 1500/371
def c33 : ℚ := -1000/159
def c34 : ℚ := 1000/371
def c42 : ℚ := -125/32
def c43 : ℚ := 125/12
def c44 : ℚ := -375/64
def c52 : ℚ := 9477/3392
def c53 : ℚ := -729/106
def c54 : ℚ := 25515/6784
def c62 : ℚ := -11/7
def c63 : ℚ := 11/3
def c64 : ℚ := -55/28
def c72 : ℚ := 3/2
def c73 : ℚ := -4
def c74 : ℚ := 5/2

/-- `interpolate` from `dopri.go`: dense output at `xnext` inside the step
from `x` of size `h`, from the start state `y` and the stage derivatives;
returns the filled buffer `ynext`. -/
def interpolate (x : ℚ) (y f1 f3 f4 f5 f6 f7 : List ℚ) (h xnext : ℚ) (nd : ℕ) : List ℚ :=
  let s1 := (xnext - x) / h
  let s2 := s1 * s1
  let s3 := s1 * s2
  let s4 := s1 * s3
  (List.range nd).map fun i =>
    y.getD i 0 +
      h * s1 * (c11 * f1.getD i 0) +
      h * s2 * (c12 * f1.getD i 0 + c32 * f3.getD i 0 + c42 * f4.getD i 0 +
        c52 * f5.getD i 0 + c62 * f6.getD i 0 + c72 * f7.getD i 0) +
      h * s3 * (c13 * f1.getD i 0 + c33 * f3.getD i 0 + c43 * f4.getD i 0 +
        c53 * f5.getD i 0 + c63 * f6.getD i 0 + c73 * f7.getD i 0) +
      h * s4 * (c14 * f1.getD i 0 + c34 * f3.getD i 0 + c44 * f4.getD i 0 +
        c54 * f5.getD i 0 + c64 * f6.getD i 0 + c74 * f7.getD i 0)

/-- Model of Go's `copy(ys[s : s+len(v)], v)`: overwrite the entries of `ys`
at positions `s ≤ k < s + len(v)` (clipped to the length of `ys`, as `copy`
clips) with the entries of `v`. -/
def setSeg (ys : List ℚ) (s : ℕ) (v : List ℚ) : List ℚ :=
  (List.range ys.length).map fun k =>
    if s ≤ k ∧ k < s + v.length then v.getD (k - s) 0 else ys.getD k 0

/-- Row `j` of the row-major flattened output matrix with `nd` columns. -/
def row (ys : List ℚ) (nd j : ℕ) : List ℚ :=
  (List.range nd).map fun i => ys.getD (j * nd + i) 0

/-- The fixed-output emission loop of `ComputeWithStats`: starting at output
row `nc`, fill every requested grid point not beyond `xnew` — by an exact copy
of `ynew` when the point coincides with `xnew`, by dense-output interpolation
otherwise.  Returns the updated output array and row counter.  `gas` bounds
the loop; the caller passes `nx`, which suffices since `nc` grows towards
`nx`. -/
def fillLoop (x : ℚ) (y f1 f3 f4 f5 f6 f7 : List ℚ) (h xnew : ℚ) (ynew : List ℚ)
    (xsIn : List ℚ) (nd nx : ℕ) : ℕ → List ℚ → ℕ → List ℚ × ℕ
  | nc, ys, 0 => (ys, nc)
  | nc, ys, gas + 1 =>
    if nc < nx then
      if xnew - xsIn.getD nc 0 < 0 then (ys, nc)
      else
        let r := if xsIn.getD nc 0 = xnew then ynew
                 else interpolate x y f1 f3 f4 f5 f6 f7 h (xsIn.getD nc 0) nd
        fillLoop x y f1 f3 f4 f5 f6 f7 h xnew ynew xsIn nd nx
          (nc + 1) (setSeg ys (nc * nd) r) gas
    else (ys, nc)

/-- The body of the initial-step scale loop of `ComputeWithStats` for
component `i`: `|f1[i]| / max(|y[i]|, threshold)` via the source's branches. -/
def initScaleTerm (threshold : ℚ) (y f1 : List ℚ) (i : ℕ) : ℚ :=
  let s := y.getD i 0
  let s := if s < 0 then -s else s
  let s := if s < threshold then threshold else s
  let s := f1.getD i 0 / s
  if s < 0 then -s else s

/-- Derivation of the initial trial step when `TryStep` is zero: start from
`xs[1] - x` capped at `hmax`, and shorten to `1/scale` when the scaled step
would exceed one. -/
def initH (env : Env) (relerr threshold hmax : ℚ) (x x1 : ℚ)
    (y f1 : List ℚ) (nd : ℕ) : ℚ :=
  let h := x1 - x
  let h := if h > hmax then hmax else h
  let scale := (List.range nd).foldl
    (fun scale i =>
      let s := initScaleTerm threshold y f1 i
      if s > scale then s else scale) 0
  let scale := scale / (0.8 * env.powFifth relerr)
  if h * scale > 1 then 1 / scale else h

/-- The maximal step: the configured value, or a tenth of the interval when
the configuration leaves it at zero. -/
def computeHmax (cfg : Config) (x xend : ℚ) : ℚ :=
  let hmax := cfg.MaxStep
  if hmax = 0 then 0.1 * (xend - x) else hmax

/-- The mutable state of the outer step loop of `ComputeWithStats`. -/
structure OuterState where
  x : ℚ
  y : List ℚ
  f1 : List ℚ
  h : ℚ
  ys : List ℚ
  xsOut : List ℚ
  nc : ℕ
  stats : Stats
deriving Repr, DecidableEq

/-- The four values `ComputeWithStats` returns: solution array, output grid,
statistics and error.  On a step-size underflow the source returns
`nil, nil, stats, err`, so `ys` and `xsOut` are `none` there while `stats`
still carries the accumulated counters. -/
structure GoReturn where
  ys : Option (List ℚ)
  xsOut : Option (List ℚ)
  stats : Option Stats
  error : Option String
deriving Repr, DecidableEq

/-- One iteration of the outer loop of `ComputeWithStats`: count the step,
clamp the trial step into `[hmin, hmax]`, land exactly on `xend` when close,
run the rejection loop, emit output, and either return or produce the state
of the next iteration.  `fuel` bounds the inner rejection loop. -/
def outerBody (env : Env) (dydx : ℚ → List ℚ → List ℚ) (threshold relerr : ℚ)
    (nd nx : ℕ) (xsIn : List ℚ) (xend hmax : ℚ) (fixed : Bool)
    (st : OuterState) (fuel : ℕ) : Option (GoReturn ⊕ OuterState) :=
  let stats : Stats := ⟨st.stats.Evaluations, st.stats.Rejections, st.stats.Steps + 1⟩
  let hmin := 16 * env.eps st.x
  let h := if st.h < hmin then hmin else st.h
  let h := if h > hmax then hmax else h
  let done : Bool := decide (1.1 * h ≥ xend - st.x)
  let h := if 1.1 * h ≥ xend - st.x then xend - st.x else h
  match innerLoop dydx env threshold relerr st.x st.y st.f1 nd hmin
      h done false stats fuel with
  | none => none
  | some (.underflow s) => some (.inl ⟨none, none, some s, some underflowMsg⟩)
  | some (.accepted t ε hAcc done rejected s) =>
    let emitted : List ℚ × List ℚ × ℕ :=
      if fixed then
        let p := fillLoop st.x st.y st.f1 t.f3 t.f4 t.f5 t.f6 t.f7 hAcc t.xnew t.ynew
          xsIn nd nx st.nc st.ys nx
        (p.1, st.xsOut, p.2)
      else
        (st.ys ++ t.ynew, st.xsOut ++ [t.xnew], st.nc + 1)
    if done then some (.inl ⟨some emitted.1, some emitted.2.1, some s, none⟩)
    else
      let h1 :=
        if rejected then hAcc
        else
          let scale := 1.25 * env.powFifth (ε / relerr)
          if scale > 0.2 then hAcc / scale else 5 * hAcc
      some (.inr ⟨t.xnew, t.ynew, t.f7, h1, emitted.1, emitted.2.1, emitted.2.2, s⟩)

/-- The outer step loop of `ComputeWithStats`, iterating `outerBody` until a
return; `fuel` bounds the number of outer iterations (and each iteration's
rejection loop). -/
def outerLoop (env : Env) (dydx : ℚ → List ℚ → List ℚ) (threshold relerr : ℚ)
    (nd nx : ℕ) (xsIn : List ℚ) (xend hmax : ℚ) (fixed : Bool) :
    OuterState → ℕ → Option GoReturn
  | _, 0 => none
  | st, fuel + 1 =>
    match outerBody env dydx threshold relerr nd nx xsIn xend hmax fixed st (fuel + 1) with
    | none => none
    | some (.inl r) => some r
    | some (.inr st1) => outerLoop env dydx threshold relerr nd nx xsIn xend hmax fixed st1 fuel

/-- `ComputeWithStats` from `dopri.go`.  The grid must have at least two
points (the source indexes `xs[0]`, `xs[1]` and `xs[len-1]`; shorter grids
are outside its domain and modelled as `none`).  `fuel` bounds the loops. -/
def Integrator.ComputeWithStats (self : Integrator) (env : Env)
    (dydx : ℚ → List ℚ → List ℚ) (y0 xs : List ℚ) (fuel : ℕ) : Option GoReturn :=
  if xs.length < 2 then none
  else
    let nd := y0.length
    let nx := xs.length
    let x := xs.getD 0 0
    let xend := xs.getD (nx - 1) 0
    let fixed : Bool := decide (nx > 2)
    let y := y0
    let f1 := dydx x y
    let stats : Stats := ⟨1, 0, 0⟩
    let config := self.config
    let relerr := config.RelError
    let threshold := config.AbsError / config.RelError
    let hmax := computeHmax config x xend
    let h := if config.TryStep = 0
      then initH env relerr threshold hmax x (xs.getD 1 0) y f1 nd
      else config.TryStep
    let ys0 := if fixed then setSeg (List.replicate (nx * nd) 0) 0 y0 else y0
    let xsOut0 := if fixed then xs else [x]
    outerLoop env dydx threshold relerr nd nx xs xend hmax fixed
      ⟨x, y, f1, h, ys0, xsOut0, 1, stats⟩ fuel

/-- `Compute` from `dopri.go`: runs `ComputeWithStats` and drops the
statistics. -/
def Integrator.Compute (self : Integrator) (env : Env)
    (dydx : ℚ → List ℚ → List ℚ) (y0 xs : List ℚ) (fuel : ℕ) :
    Option (Option (List ℚ) × Option (List ℚ) × Option String) :=
  (self.ComputeWithStats env dydx y0 xs fuel).map fun r => (r.ys, r.xsOut, r.error)

/-! ## Concrete fixtures used by witnesses and counterexamples -/

/-- Fixture environment whose fifth-root model is the constant 10 (so a
rejected step's proportional shrink factor becomes 8) and whose machine
epsilon is the constant 1/160 (so `hmin = 0.1` throughout). -/
def envGrow : Env := ⟨fun _ => 10, fun _ => 1/160⟩

/-- Fixture derivative with spikes at the three points 3/10, 12/5 and 16/5 and
zero elsewhere; each spike is met by exactly one of the first three trial
steps of a run from `x = 0` with `h = 1`. -/
def dydxSpikes : ℚ → List ℚ → List ℚ :=
  fun x _ => [if x = 3/10 ∨ x = 12/5 ∨ x = 16/5 then 1000 else 0]

/-- Fixture configuration with `TryStep = MaxStep = 1` and both tolerances
1/1000 (so `threshold = 1`). -/
def cfgTight : Config := ⟨1, 1, 1/1000, 1/1000⟩

/-- Fixture environment whose fifth-root model is the constant 1/8 (so a
rejected step's proportional shrink factor becomes exactly 0.1) and whose
machine epsilon is the constant 1/160. -/
def envShrink : Env := ⟨fun _ => 1/8, fun _ => 1/160⟩

/-- Fixture derivative that is zero at `x = 0` and huge elsewhere: every trial
step from `x = 0` is rejected, driving the step size to underflow. -/
def dydxJump : ℚ → List ℚ → List ℚ := fun x _ => [if x = 0 then 0 else 1000000]

/-- Fixture environment with both float primitives constant (1 and 1/160). -/
def envOne : Env := ⟨fun _ => 1, fun _ => 1/160⟩

/-- Fixture derivative constantly 1, integrated exactly by the method. -/
def dydxConst : ℚ → List ℚ → List ℚ := fun _ _ => [1]

/-- Fixture configuration with `TryStep = MaxStep = 1` and both tolerances 1. -/
def cfgLoose : Config := ⟨1, 1, 1, 1⟩

/-! ## Helper lemmas: the source's branchy running maxima as `max`/`|·|` -/

theorem ite_neg_abs (a : ℚ) : (if a < 0 then -a else a) = |a| := by
  rcases lt_or_ge a 0 with h | h
  · rw [if_pos h, abs_of_neg h]
  · rw [if_neg (not_lt.mpr h), abs_of_nonneg h]

theorem ite_gt_max (s b : ℚ) : (if b > s then b else s) = max s b := by
  rcases lt_or_ge s b with h | h
  · rw [if_pos h, max_eq_right h.le]
  · rw [if_neg (not_lt.mpr h), max_eq_left h]

theorem ite_lt_max (a b : ℚ) : (if a < b then b else a) = max a b := by
  rcases lt_or_ge a b with h | h
  · rw [if_pos h, max_eq_right h.le]
  · rw [if_neg (not_lt.mpr h), max_eq_left h]

theorem ite_pos_max_abs (yn s : ℚ) :
    (if yn > 0 then (if yn > s then yn else s) else (if -yn > s then -yn else s))
      = max s |yn| := by
  rcases lt_or_ge 0 yn with h | h
  · rw [if_pos h, abs_of_pos h, ite_gt_max]
  · rw [if_neg (not_lt.mpr h), abs_of_nonpos h, ite_gt_max]

theorem foldl_ifmax (g : ℕ → ℚ) :
    ∀ (l : List ℕ) (a : ℚ),
      l.foldl (fun acc i => if g i > acc then g i else acc) a = (l.map g).foldl max a := by
  intro l
  induction l with
  | nil => intro a; rfl
  | cons b t ih =>
    intro a
    simp only [List.foldl_cons, List.map_cons]
    rw [ih, ite_gt_max]

/-- The per-component error term is the embedded-pair combination scaled by
`h` over the blended scale `max(|y[i]|, |ynew[i]|, threshold)`. -/
theorem errTerm_eq (threshold h : ℚ) (y ynew f1 f3 f4 f5 f6 f7 : List ℚ) (i : ℕ) :
    errTerm threshold h y ynew f1 f3 f4 f5 f6 f7 i
      = h * |e1 * f1.getD i 0 + e3 * f3.getD i 0 + e4 * f4.getD i 0 + e5 * f5.getD i 0 +
          e6 * f6.getD i 0 + e7 * f7.getD i 0| /
        max (max |y.getD i 0| |ynew.getD i 0|) threshold := by
  simp only [errTerm]
  rw [ite_neg_abs, ite_pos_max_abs, ite_lt_max, ite_neg_abs]

/-- The error norm of a trial step is the maximum over the components of the
per-component error terms (with `0` as the neutral starting value, exactly as
the source initialises `ε`). -/
theorem errorEstimate_eq_max (threshold h : ℚ) (y ynew f1 f3 f4 f5 f6 f7 : List ℚ) (nd : ℕ) :
    errorEstimate threshold h y ynew f1 f3 f4 f5 f6 f7 nd
      = ((List.range nd).map fun i =>
          h * |e1 * f1.getD i 0 + e3 * f3.getD i 0 + e4 * f4.getD i 0 + e5 * f5.getD i 0 +
            e6 * f6.getD i 0 + e7 * f7.getD i 0| /
          max (max |y.getD i 0| |ynew.getD i 0|) threshold).foldl max 0 := by
  simp only [errorEstimate]
  rw [foldl_ifmax]
  exact congrArg (List.foldl max 0)
    (List.map_congr_left fun i _ => errTerm_eq threshold h y ynew f1 f3 f4 f5 f6 f7 i)

/-- Any accepted result of the rejection loop has its error estimate within
the relative tolerance. -/
theorem innerLoop_accepted_le (dydx : ℚ → List ℚ → List ℚ) (env : Env)
    (threshold relerr : ℚ) (x : ℚ) (y f1 : List ℚ) (nd : ℕ) (hmin : ℚ) :
    ∀ (fuel : ℕ) (h : ℚ) (done rejected : Bool) (stats : Stats)
      (t : Trial) (ε hA : ℚ) (d r : Bool) (s : Stats),
      innerLoop dydx env threshold relerr x y f1 nd hmin h done rejected stats fuel
        = some (.accepted t ε hA d r s) → ε ≤ relerr := by
  intro fuel
  induction fuel with
  | zero => intro h done rejected stats t ε hA d r s hres; exact absurd hres (by simp [innerLoop])
  | succ n ih =>
    intro h done rejected stats t ε hA d r s hres
    simp only [innerLoop] at hres
    split at hres
    · rename_i hle
      injection hres with hres
      injection hres with h1 h2 h3 h4 h5 h6
      exact h2 ▸ hle
    · split at hres
      · exact absurd hres (by simp)
      · exact ih _ _ _ _ _ _ _ _ _ _ hres

/-- C1: For every trial step of the adaptive integrator, the scalar error
estimate `ε` is the maximum over all state components `i` of
`h * |e1*f1[i] + e3*f3[i] + e4*f4[i] + e5*f5[i] + e6*f6[i] + e7*f7[i]| / scale_i`
with `scale_i = max(|y[i]|, |ynew[i]|, threshold)` where `threshold` is
`AbsError/RelError`; and the rejection loop exits with this trial accepted if
and only if `ε ≤ RelError`. -/
theorem C1_error_norm_and_acceptance (dydx : ℚ → List ℚ → List ℚ) (env : Env)
    (threshold relerr : ℚ) (x h hmin : ℚ) (y f1 : List ℚ) (nd : ℕ)
    (done rejected : Bool) (stats : Stats) (fuel : ℕ) :
    let t := trial dydx x h y f1 nd
    let ε := errorEstimate threshold h y t.ynew f1 t.f3 t.f4 t.f5 t.f6 t.f7 nd
    (ε = ((List.range nd).map fun i =>
        h * |e1 * f1.getD i 0 + e3 * t.f3.getD i 0 + e4 * t.f4.getD i 0 +
          e5 * t.f5.getD i 0 + e6 * t.f6.getD i 0 + e7 * t.f7.getD i 0| /
        max (max |y.getD i 0| |t.ynew.getD i 0|) threshold).foldl max 0)
    ∧ ((∃ d r s, innerLoop dydx env threshold relerr x y f1 nd hmin h done rejected stats
          (fuel + 1) = some (.accepted t ε h d r s)) ↔ ε ≤ relerr) := by
  intro t ε
  refine ⟨errorEstimate_eq_max threshold h y t.ynew f1 t.f3 t.f4 t.f5 t.f6 t.f7 nd, ?_, ?_⟩
  · rintro ⟨d, r, s, hres⟩
    exact innerLoop_accepted_le dydx env threshold relerr x y f1 nd hmin
      (fuel + 1) h done rejected stats t ε h d r s hres
  · intro hε
    refine ⟨done, rejected, ⟨stats.Evaluations + 6, stats.Rejections, stats.Steps⟩, ?_⟩
    simp only [innerLoop]
    rw [if_pos hε]

theorem ite_scale_mul (c h : ℚ) : (if c > 0.1 then c * h else 0.1 * h) = max c 0.1 * h := by
  rcases lt_or_ge (0.1 : ℚ) c with hlt | hge
  · rw [if_pos hlt, max_eq_left hlt.le]
  · rw [if_neg (not_lt.mpr hge), max_eq_right hge]

/-- C4: When a trial step is rejected, on the first rejection of the current
outer step `h` is multiplied by `max(0.8*(RelError/ε)^(1/5), 0.1)`, on a
repeated rejection it is halved, in both cases re-clamped up to `hmin`; and
the rejection loop performs exactly this update together with one increment
of the rejection counter (and six more evaluations for the rejected trial). -/
theorem C4_rejection_shrink (dydx : ℚ → List ℚ → List ℚ) (env : Env)
    (threshold relerr : ℚ) (x h hmin : ℚ) (y f1 : List ℚ) (nd : ℕ)
    (done rejected : Bool) (stats : Stats) (fuel : ℕ) :
    let t := trial dydx x h y f1 nd
    let ε := errorEstimate threshold h y t.ynew f1 t.f3 t.f4 t.f5 t.f6 t.f7 nd
    (shrinkH env relerr hmin false ε h
        = max hmin (max (0.8 * env.powFifth (relerr / ε)) 0.1 * h))
    ∧ (shrinkH env relerr hmin true ε h = max hmin (0.5 * h))
    ∧ (relerr < ε → hmin < h →
        innerLoop dydx env threshold relerr x y f1 nd hmin h done rejected stats (fuel + 1)
          = innerLoop dydx env threshold relerr x y f1 nd hmin
              (shrinkH env relerr hmin rejected ε h) false true
              ⟨stats.Evaluations + 6, stats.Rejections + 1, stats.Steps⟩ fuel) := by
  intro t ε
  refine ⟨?_, ?_, ?_⟩
  · simp only [shrinkH, Bool.false_eq_true, if_false]
    rw [ite_scale_mul, ite_lt_max, max_comm]
  · simp only [shrinkH, if_true]
    rw [ite_lt_max, max_comm]
  · intro hrel hlt
    simp only [innerLoop]
    rw [if_neg (not_le.mpr hrel), if_neg (not_le.mpr hlt)]

/-- C4 witness: a concrete rejected trial (the first rejection of its step)
follows exactly the shrink-and-retry transition. -/
theorem C4_rejection_shrink_witness :
    let t := trial dydxJump 0 1 [0] [0] 1
    let ε := errorEstimate 1 1 [0] t.ynew [0] t.f3 t.f4 t.f5 t.f6 t.f7 1
    innerLoop dydxJump envShrink 1 (1/1000) 0 [0] [0] 1 (1/10) 1 true false ⟨1, 0, 1⟩ 4
      = innerLoop dydxJump envShrink 1 (1/1000) 0 [0] [0] 1 (1/10)
          (shrinkH envShrink (1/1000) (1/10) false ε 1) false true ⟨7, 1, 1⟩ 3 := by
  intro t ε
  exact (C4_rejection_shrink dydxJump envShrink 1 (1/1000) 0 1 (1/10) [0] [0] 1 true false
      ⟨1, 0, 1⟩ 3).2.2
    (by with_unfolding_all decide) (by with_unfolding_all decide)

/-- C3 counterexample: an accepted, non-terminal outer step whose rejection
loop had rejected earlier trials (the `rejected` flag of the accepted result
is `true`) does not get the controller's step size.  In this run the step from
`x = 0` is accepted at `hAcc = 2` with `ε = 0` after three rejections; the
claimed formula would give `2 / (1.25 * 10) = 4/25` (the environment's fifth
root is the constant 10), but the next state keeps `h = 2`. -/
theorem C3_counterexample :
    innerLoop dydxSpikes envGrow 1 (1/1000) 0 [0] [0] 1 (1/10) 1 true false ⟨1, 0, 1⟩ 10
      = some (.accepted (trial dydxSpikes 0 2 [0] [0] 1) 0 2 false true ⟨25, 3, 1⟩)
    ∧ outerBody envGrow dydxSpikes 1 (1/1000) 1 2 [0, 1] 1 1 false
        ⟨0, [0], [0], 1, [0], [0], 1, ⟨1, 0, 0⟩⟩ 10
      = some (.inr ⟨2, [0], [0], 2, [0, 0], [0, 2], 2, ⟨25, 3, 1⟩⟩)
    ∧ ¬((2 : ℚ) = (if 1.25 * envGrow.powFifth ((0 : ℚ) / (1/1000)) > 0.2
        then 2 / (1.25 * envGrow.powFifth ((0 : ℚ) / (1/1000))) else 5 * 2)) := by
  with_unfolding_all decide

/-- C3 amended: after an accepted, non-terminal step whose rejection loop
never rejected (the `rejected` flag is `false`), the next trial step size is
`h/scale` for `scale = 1.25 * (ε/RelError)^(1/5)` when `scale > 0.2` and `5*h`
otherwise; but when the accepted step had been rejected at least once, the
controller is skipped and the step size from the rejection loop is kept. -/
theorem C3_controller_after_acceptance (env : Env) (dydx : ℚ → List ℚ → List ℚ)
    (threshold relerr : ℚ) (nd nx : ℕ) (xsIn : List ℚ) (xend hmax : ℚ) (fixed : Bool)
    (st : OuterState) (fuel : ℕ) (t : Trial) (ε hAcc : ℚ) (rejected : Bool) (s : Stats)
    (h2 : ℚ)
    (hh2 : h2 = (if (if st.h < 16 * env.eps st.x then 16 * env.eps st.x else st.h) > hmax
        then hmax else (if st.h < 16 * env.eps st.x then 16 * env.eps st.x else st.h)))
    (hinner : innerLoop dydx env threshold relerr st.x st.y st.f1 nd (16 * env.eps st.x)
        (if 1.1 * h2 ≥ xend - st.x then xend - st.x else h2)
        (decide (1.1 * h2 ≥ xend - st.x)) false
        ⟨st.stats.Evaluations, st.stats.Rejections, st.stats.Steps + 1⟩ fuel
      = some (.accepted t ε hAcc false rejected s)) :
    ∃ st1, outerBody env dydx threshold relerr nd nx xsIn xend hmax fixed st fuel
        = some (.inr st1)
      ∧ (rejected = false → st1.h =
          (if 1.25 * env.powFifth (ε / relerr) > 0.2
            then hAcc / (1.25 * env.powFifth (ε / relerr)) else 5 * hAcc))
      ∧ (rejected = true → st1.h = hAcc) := by
  subst hh2
  simp only [outerBody]
  rw [hinner]
  refine ⟨_, rfl, ?_, ?_⟩
  · intro hr; subst hr; rfl
  · intro hr; subst hr; rfl

/-- C3 witness: a concrete accepted step with no rejections gets the
controller's step size (here `ε = 0` and the environment's fifth root is
constantly 1, so `scale = 1.25 > 0.2` and the next step is `hAcc / 1.25`). -/
theorem C3_controller_witness :
    ∃ st1, outerBody envOne dydxConst 1 1 1 2 [0, 10] 10 1 false
        ⟨0, [0], [1], 1, [0], [0], 1, ⟨1, 0, 0⟩⟩ 10
        = some (.inr st1)
      ∧ st1.h = (if 1.25 * envOne.powFifth ((0 : ℚ) / 1) > 0.2
          then 1 / (1.25 * envOne.powFifth ((0 : ℚ) / 1)) else 5 * 1) := by
  obtain ⟨st1, hb, hf, -⟩ := C3_controller_after_acceptance envOne dydxConst 1 1 1 2 [0, 10] 10 1
    false ⟨0, [0], [1], 1, [0], [0], 1, ⟨1, 0, 0⟩⟩ 10
    (trial dydxConst 0 1 [0] [1] 1) 0 1 false ⟨7, 0, 1⟩ 1
    (by with_unfolding_all decide) (by with_unfolding_all decide)
  exact ⟨st1, hb, hf rfl⟩

theorem ite_gt_min (a b : ℚ) : (if a > b then b else a) = min a b := by
  rcases lt_or_ge b a with h | h
  · rw [if_pos h, min_eq_right h.le]
  · rw [if_neg (not_lt.mpr h), min_eq_left h]

/-- The per-component scale term of the initial-step heuristic is
`|f1[i]| / max(|y[i]|, threshold)`. -/
theorem initScaleTerm_eq (threshold : ℚ) (y f1 : List ℚ) (i : ℕ) :
    initScaleTerm threshold y f1 i = |f1.getD i 0| / max |y.getD i 0| threshold := by
  simp only [initScaleTerm]
  rw [ite_neg_abs, ite_lt_max, ite_neg_abs, abs_div,
    abs_of_nonneg (le_trans (abs_nonneg (y.getD i 0)) (le_max_left _ _))]

/-- C7: With `TryStep = 0` the initial trial step starts from
`min(xs[1] - x0, hmax)` and is replaced by `1/scale` whenever `h*scale > 1`,
where `scale` is the maximum over the components of
`|f1[i]| / max(|y0[i]|, threshold)` divided by `0.8 * RelError^(1/5)`; and
`hmax` is the configured `MaxStep`, or `0.1 * (xend - x0)` when `MaxStep` is
zero.  (`Integrator.ComputeWithStats` invokes `initH` exactly when
`TryStep = 0`, and `computeHmax` always.) -/
theorem C7_initial_step (env : Env) (relerr threshold hmax : ℚ) (x x1 : ℚ)
    (y f1 : List ℚ) (nd : ℕ) (cfg : Config) (xend : ℚ) :
    (initH env relerr threshold hmax x x1 y f1 nd
      = (if min (x1 - x) hmax *
            ((((List.range nd).map fun i =>
              |f1.getD i 0| / max |y.getD i 0| threshold).foldl max 0) /
              (0.8 * env.powFifth relerr)) > 1
          then 1 / ((((List.range nd).map fun i =>
              |f1.getD i 0| / max |y.getD i 0| threshold).foldl max 0) /
              (0.8 * env.powFifth relerr))
          else min (x1 - x) hmax))
    ∧ (computeHmax cfg x xend = if cfg.MaxStep = 0 then 0.1 * (xend - x) else cfg.MaxStep) := by
  constructor
  · simp only [initH]
    rw [ite_gt_min, foldl_ifmax]
    rw [List.map_congr_left fun i _ => initScaleTerm_eq threshold y f1 i]
  · simp only [computeHmax]

/-- Work accounting of the rejection loop: entering with
`Evaluations + 5 = 6 * (Steps + Rejections)` (the pending step is counted but
its first trial not yet paid), an accepted exit establishes the exact identity
`Evaluations = 1 + 6 * (Steps + Rejections)`, and an underflow exit keeps the
entering form with at least one rejection recorded; neither touches `Steps`. -/
theorem innerLoop_stats (dydx : ℚ → List ℚ → List ℚ) (env : Env)
    (threshold relerr : ℚ) (x : ℚ) (y f1 : List ℚ) (nd : ℕ) (hmin : ℚ) :
    ∀ (fuel : ℕ) (h : ℚ) (done rejected : Bool) (stats : Stats) (res : InnerResult),
      innerLoop dydx env threshold relerr x y f1 nd hmin h done rejected stats fuel
        = some res →
      stats.Evaluations + 5 = 6 * (stats.Steps + stats.Rejections) →
      (∀ t ε hA d r s, res = .accepted t ε hA d r s →
        s.Evaluations = 1 + 6 * (s.Steps + s.Rejections) ∧ s.Steps = stats.Steps) ∧
      (∀ s, res = .underflow s →
        s.Evaluations + 5 = 6 * (s.Steps + s.Rejections) ∧ s.Steps = stats.Steps ∧
          1 ≤ s.Rejections) := by
  intro fuel
  induction fuel with
  | zero =>
    intro h done rejected stats res hres
    exact absurd hres (by simp [innerLoop])
  | succ n ih =>
    intro h done rejected stats res hres hpre
    simp only [innerLoop] at hres
    split at hres
    · injection hres with hres
      subst hres
      refine ⟨?_, ?_⟩
      · intro t ε hA d r s hs
        injection hs with h1 h2 h3 h4 h5 h6
        subst h6
        exact ⟨by simp; omega, rfl⟩
      · intro s hs
        cases hs
    · split at hres
      · injection hres with hres
        subst hres
        refine ⟨?_, ?_⟩
        · intro t ε hA d r s hs
          cases hs
        · intro s hs
          injection hs with h1
          subst h1
          exact ⟨by simp; omega, rfl, by simp⟩
      · have := ih _ _ _ _ _ hres (by simp; omega)
        exact this

/-- Work accounting of one outer iteration: from a state satisfying the exact
identity, a return carries statistics with `Evaluations ≥ 6 * Steps` (and the
exact identity on success), and a continuation state satisfies the exact
identity again. -/
theorem outerBody_stats (env : Env) (dydx : ℚ → List ℚ → List ℚ)
    (threshold relerr : ℚ) (nd nx : ℕ) (xsIn : List ℚ) (xend hmax : ℚ) (fixed : Bool)
    (st : OuterState) (fuel : ℕ) (res : GoReturn ⊕ OuterState)
    (hb : outerBody env dydx threshold relerr nd nx xsIn xend hmax fixed st fuel = some res)
    (hpre : st.stats.Evaluations = 1 + 6 * (st.stats.Steps + st.stats.Rejections)) :
    (∀ r, res = .inl r → ∃ s, r.stats = some s ∧ 6 * s.Steps ≤ s.Evaluations ∧
      (r.error = none → s.Evaluations = 1 + 6 * (s.Steps + s.Rejections))) ∧
    (∀ st1, res = .inr st1 →
      st1.stats.Evaluations = 1 + 6 * (st1.stats.Steps + st1.stats.Rejections)) := by
  simp only [outerBody] at hb
  split at hb
  · exact absurd hb (by simp)
  · rename_i s' heq
    have hst := innerLoop_stats dydx env threshold relerr st.x st.y st.f1 nd
      (16 * env.eps st.x) _ _ _ _ _ _ heq (by simp; omega)
    obtain ⟨-, hu⟩ := hst
    obtain ⟨h1, h2, h3⟩ := hu s' rfl
    injection hb with hb
    subst hb
    refine ⟨?_, ?_⟩
    · intro r hr
      injection hr with hr
      subst hr
      exact ⟨s', rfl, by omega, by intro hc; cases hc⟩
    · intro st1 hst1
      cases hst1
  · rename_i t ε hA d rej s' heq
    have hst := innerLoop_stats dydx env threshold relerr st.x st.y st.f1 nd
      (16 * env.eps st.x) _ _ _ _ _ _ heq (by simp; omega)
    obtain ⟨ha, -⟩ := hst
    obtain ⟨h1, h2⟩ := ha t ε hA d rej s' rfl
    split at hb
    · injection hb with hb
      subst hb
      refine ⟨?_, ?_⟩
      · intro r hr
        injection hr with hr
        subst hr
        exact ⟨s', rfl, by omega, fun _ => h1⟩
      · intro st1 hst1
        cases hst1
    · injection hb with hb
      subst hb
      refine ⟨?_, ?_⟩
      · intro r hr
        cases hr
      · intro st1 hst1
        injection hst1 with hst1
        subst hst1
        exact h1

/-- Work accounting of the whole outer loop: any returned statistics satisfy
`Evaluations ≥ 6 * Steps`, and the exact identity
`Evaluations = 1 + 6 * (Steps + Rejections)` on success. -/
theorem outerLoop_stats (env : Env) (dydx : ℚ → List ℚ → List ℚ)
    (threshold relerr : ℚ) (nd nx : ℕ) (xsIn : List ℚ) (xend hmax : ℚ) (fixed : Bool) :
    ∀ (fuel : ℕ) (st : OuterState) (r : GoReturn),
      outerLoop env dydx threshold relerr nd nx xsIn xend hmax fixed st fuel = some r →
      st.stats.Evaluations = 1 + 6 * (st.stats.Steps + st.stats.Rejections) →
      ∃ s, r.stats = some s ∧ 6 * s.Steps ≤ s.Evaluations ∧
        (r.error = none → s.Evaluations = 1 + 6 * (s.Steps + s.Rejections)) := by
  intro fuel
  induction fuel with
  | zero =>
    intro st r hr
    exact absurd hr (by simp [outerLoop])
  | succ n ih =>
    intro st r hr hpre
    simp only [outerLoop] at hr
    split at hr
    · exact absurd hr (by simp)
    · rename_i r' heq
      injection hr with hr
      subst hr
      exact (outerBody_stats env dydx threshold relerr nd nx xsIn xend hmax fixed
        st (n + 1) _ heq hpre).1 r' rfl
    · rename_i st1 heq
      exact ih st1 r hr ((outerBody_stats env dydx threshold relerr nd nx xsIn xend hmax fixed
        st (n + 1) _ heq hpre).2 st1 rfl)

/-- C10: On every successful return of `ComputeWithStats` the statistics
satisfy the exact identity `Evaluations = 1 + 6 * (Steps + Rejections)`: one
seed evaluation before the loop, plus six evaluations per trial, accepted or
rejected. -/
theorem C10_evaluations_identity (self : Integrator) (env : Env)
    (dydx : ℚ → List ℚ → List ℚ) (y0 xs : List ℚ) (fuel : ℕ) (r : GoReturn) (s : Stats)
    (hrun : self.ComputeWithStats env dydx y0 xs fuel = some r)
    (herr : r.error = none) (hs : r.stats = some s) :
    s.Evaluations = 1 + 6 * (s.Steps + s.Rejections) := by
  simp only [Integrator.ComputeWithStats] at hrun
  split at hrun
  · exact absurd hrun (by simp)
  · obtain ⟨s', hs', hle, hexact⟩ :=
      outerLoop_stats _ _ _ _ _ _ _ _ _ _ _ _ _ hrun (by simp)
    rw [hs'] at hs
    injection hs with hs
    subst hs
    exact hexact herr

/-- C10 witness: the constant-derivative fixed-grid run takes one step with no
rejections and seven evaluations, and `7 = 1 + 6 * (1 + 0)`. -/
theorem C10_evaluations_identity_witness :
    (Stats.mk 7 0 1).Evaluations = 1 + 6 * ((Stats.mk 7 0 1).Steps + (Stats.mk 7 0 1).Rejections) :=
  C10_evaluations_identity ⟨cfgLoose⟩ envOne dydxConst [0] [0, 1/2, 1] 10
    ⟨some [0, 1/2, 1], some [0, 1/2, 1], some ⟨7, 0, 1⟩, none⟩ ⟨7, 0, 1⟩
    (by with_unfolding_all decide) rfl rfl

/-- C5 counterexample: a successful run (the spiky derivative under `envGrow`)
returns statistics with 3 rejections but only 2 steps, refuting
`Rejections ≤ Steps`; the first outer step is rejected three times before
acceptance. -/
theorem C5_counterexample :
    (Integrator.mk cfgTight).ComputeWithStats envGrow dydxSpikes [0] [0, 1] 10
      = some ⟨some [0, 0, 0], some [0, 2, 1], some ⟨31, 3, 2⟩, none⟩
    ∧ ¬((Stats.mk 31 3 2).Rejections ≤ (Stats.mk 31 3 2).Steps) := by
  with_unfolding_all decide

/-- C5 amended: for every run of the adaptive integrator (any derivative
evaluator, initial state and grid), the returned statistics satisfy
`Evaluations ≥ 6 × Steps`; the bound `Rejections ≤ Steps` of the original
claim does not hold in general (see the counterexample). -/
theorem C5_evaluations_lower_bound (self : Integrator) (env : Env)
    (dydx : ℚ → List ℚ → List ℚ) (y0 xs : List ℚ) (fuel : ℕ) (r : GoReturn) (s : Stats)
    (hrun : self.ComputeWithStats env dydx y0 xs fuel = some r)
    (hs : r.stats = some s) :
    6 * s.Steps ≤ s.Evaluations := by
  simp only [Integrator.ComputeWithStats] at hrun
  split at hrun
  · exact absurd hrun (by simp)
  · obtain ⟨s', hs', hle, -⟩ :=
      outerLoop_stats _ _ _ _ _ _ _ _ _ _ _ _ _ hrun (by simp)
    rw [hs'] at hs
    injection hs with hs
    subst hs
    exact hle

/-- C5 witness: the statistics of the counterexample run still satisfy the
amended bound, `6 * 2 ≤ 31`. -/
theorem C5_evaluations_lower_bound_witness :
    6 * (Stats.mk 31 3 2).Steps ≤ (Stats.mk 31 3 2).Evaluations :=
  C5_evaluations_lower_bound ⟨cfgTight⟩ envGrow dydxSpikes [0] [0, 1] 10
    ⟨some [0, 0, 0], some [0, 2, 1], some ⟨31, 3, 2⟩, none⟩ ⟨31, 3, 2⟩
    (by with_unfolding_all decide) rfl

/-- Error shape of one outer iteration: a returned error is always the
underflow message, with `nil` solution arrays but the statistics present. -/
theorem outerBody_err_shape (env : Env) (dydx : ℚ → List ℚ → List ℚ)
    (threshold relerr : ℚ) (nd nx : ℕ) (xsIn : List ℚ) (xend hmax : ℚ) (fixed : Bool)
    (st : OuterState) (fuel : ℕ) (res : GoReturn ⊕ OuterState)
    (hb : outerBody env dydx threshold relerr nd nx xsIn xend hmax fixed st fuel = some res) :
    ∀ r m, res = .inl r → r.error = some m →
      m = underflowMsg ∧ r.ys = none ∧ r.xsOut = none ∧ r.stats.isSome = true := by
  simp only [outerBody] at hb
  split at hb
  · exact absurd hb (by simp)
  · injection hb with hb
    subst hb
    intro r m hr hm
    injection hr with hr
    subst hr
    injection hm with hm
    subst hm
    exact ⟨rfl, rfl, rfl, rfl⟩
  · split at hb
    · injection hb with hb
      subst hb
      intro r m hr hm
      injection hr with hr
      subst hr
      cases hm
    · injection hb with hb
      subst hb
      intro r m hr
      cases hr

/-- Error shape of the whole loop. -/
theorem outerLoop_err_shape (env : Env) (dydx : ℚ → List ℚ → List ℚ)
    (threshold relerr : ℚ) (nd nx : ℕ) (xsIn : List ℚ) (xend hmax : ℚ) (fixed : Bool) :
    ∀ (fuel : ℕ) (st : OuterState) (r : GoReturn) (m : String),
      outerLoop env dydx threshold relerr nd nx xsIn xend hmax fixed st fuel = some r →
      r.error = some m →
      m = underflowMsg ∧ r.ys = none ∧ r.xsOut = none ∧ r.stats.isSome = true := by
  intro fuel
  induction fuel with
  | zero =>
    intro st r m hr
    exact absurd hr (by simp [outerLoop])
  | succ n ih =>
    intro st r m hr hm
    simp only [outerLoop] at hr
    split at hr
    · exact absurd hr (by simp)
    · rename_i r' heq
      injection hr with hr
      subst hr
      exact outerBody_err_shape env dydx threshold relerr nd nx xsIn xend hmax fixed
        st (n + 1) _ heq r' m rfl hm
    · rename_i st1 heq
      exact ih st1 r m hr hm

/-- C2 counterexample: a step-size-underflow run whose returned statistics are
`some ⟨13, 2, 1⟩`, not absent — the source's `return nil, nil, stats, err`
hands the accumulated statistics to the caller, so the claim that no
statistics are returned is false. -/
theorem C2_counterexample :
    (Integrator.mk cfgTight).ComputeWithStats envShrink dydxJump [0] [0, 1] 10
      = some ⟨none, none, some ⟨13, 2, 1⟩, some underflowMsg⟩
    ∧ ¬((some (Stats.mk 13 2 1) : Option Stats) = none) := by
  with_unfolding_all decide

/-- C2 amended: when the adaptive integration fails, `ComputeWithStats`
returns no solution and no output grid (both `nil`), but it does return the
accumulated statistics together with the failure, for every derivative
evaluator, initial state and grid. -/
theorem C2_underflow_return_shape (self : Integrator) (env : Env)
    (dydx : ℚ → List ℚ → List ℚ) (y0 xs : List ℚ) (fuel : ℕ) (r : GoReturn) (m : String)
    (hrun : self.ComputeWithStats env dydx y0 xs fuel = some r)
    (herr : r.error = some m) :
    r.ys = none ∧ r.xsOut = none ∧ r.stats.isSome = true := by
  simp only [Integrator.ComputeWithStats] at hrun
  split at hrun
  · exact absurd hrun (by simp)
  · obtain ⟨-, h⟩ := outerLoop_err_shape _ _ _ _ _ _ _ _ _ _ _ _ _ _ hrun herr
    exact h

/-- C2 witness: the underflow run of the counterexample has the amended
shape — `nil` solution, `nil` grid, statistics present. -/
theorem C2_underflow_return_shape_witness :
    (GoReturn.mk none none (some ⟨13, 2, 1⟩) (some underflowMsg)).ys = none
    ∧ (GoReturn.mk none none (some ⟨13, 2, 1⟩) (some underflowMsg)).xsOut = none
    ∧ (GoReturn.mk none none (some ⟨13, 2, 1⟩) (some underflowMsg)).stats.isSome = true :=
  C2_underflow_return_shape ⟨cfgTight⟩ envShrink dydxJump [0] [0, 1] 10
    ⟨none, none, some ⟨13, 2, 1⟩, some underflowMsg⟩ underflowMsg
    (by with_unfolding_all decide) rfl

/-- C8: `New` succeeds exactly when the configuration satisfies
`TryStep ≥ 0`, `MaxStep ≥ 0`, `AbsError > 0` and `RelError > 0`; on success
the integrator stores the configuration unchanged; and the only error the
integration itself can produce is the step-size underflow, never one of the
configuration errors. -/
theorem C8_construction :
    (∀ c : Config, (∃ i, New c = .ok i)
      ↔ (0 ≤ c.TryStep ∧ 0 ≤ c.MaxStep ∧ 0 < c.AbsError ∧ 0 < c.RelError))
    ∧ (∀ c i, New c = .ok i → i.config = c)
    ∧ (∀ (self : Integrator) (env : Env) (dydx : ℚ → List ℚ → List ℚ)
        (y0 xs : List ℚ) (fuel : ℕ) (r : GoReturn) (m : String),
        self.ComputeWithStats env dydx y0 xs fuel = some r → r.error = some m →
        m = underflowMsg ∧ ¬(m ∈ configErrorMessages)) := by
  refine ⟨?_, ?_, ?_⟩
  · intro c
    simp only [New, Config.verify]
    split_ifs with h1 h2 h3 h4
    · constructor
      · rintro ⟨i, hi⟩; cases hi
      · rintro ⟨ht, -, -, -⟩; exact absurd h1 (not_lt.mpr ht)
    · constructor
      · rintro ⟨i, hi⟩; cases hi
      · rintro ⟨-, ht, -, -⟩; exact absurd h2 (not_lt.mpr ht)
    · constructor
      · rintro ⟨i, hi⟩; cases hi
      · rintro ⟨-, -, ht, -⟩; exact absurd h3 (not_le.mpr ht)
    · constructor
      · rintro ⟨i, hi⟩; cases hi
      · rintro ⟨-, -, -, ht⟩; exact absurd h4 (not_le.mpr ht)
    · exact ⟨fun _ => ⟨not_lt.mp h1, not_lt.mp h2, not_le.mp h3, not_le.mp h4⟩,
        fun _ => ⟨⟨c⟩, rfl⟩⟩
  · intro c i h
    simp only [New] at h
    split at h
    · cases h
    · injection h with h
      subst h
      rfl
  · intro self env dydx y0 xs fuel r m hrun herr
    simp only [Integrator.ComputeWithStats] at hrun
    split at hrun
    · exact absurd hrun (by simp)
    · obtain ⟨hm, -⟩ := outerLoop_err_shape _ _ _ _ _ _ _ _ _ _ _ _ _ _ hrun herr
      subst hm
      exact ⟨rfl, by decide⟩

/-- C8 witness: the all-defaults-like configuration `⟨0, 0, 1, 1⟩` is
accepted, its integrator stores it, and the concrete underflow run's error is
the underflow message and not a configuration error. -/
theorem C8_construction_witness :
    (∃ i, New ⟨0, 0, 1, 1⟩ = .ok i)
    ∧ Integrator.config ⟨⟨0, 0, 1, 1⟩⟩ = ⟨0, 0, 1, 1⟩
    ∧ (underflowMsg = underflowMsg ∧ ¬(underflowMsg ∈ configErrorMessages)) :=
  ⟨(C8_construction.1 ⟨0, 0, 1, 1⟩).mpr (by norm_num),
   C8_construction.2.1 ⟨0, 0, 1, 1⟩ ⟨⟨0, 0, 1, 1⟩⟩ rfl,
   C8_construction.2.2 ⟨cfgTight⟩ envShrink dydxJump [0] [0, 1] 10
     ⟨none, none, some ⟨13, 2, 1⟩, some underflowMsg⟩ underflowMsg
     (by with_unfolding_all decide) rfl⟩

/-- C9: `Compute` returns exactly the solution array, output grid and error
that `ComputeWithStats` returns on the same inputs; the augmented variant
differs only in additionally returning the statistics record. -/
theorem C9_compute_refines_computeWithStats (self : Integrator) (env : Env)
    (dydx : ℚ → List ℚ → List ℚ) (y0 xs : List ℚ) (fuel : ℕ) :
    self.Compute env dydx y0 xs fuel
      = (self.ComputeWithStats env dydx y0 xs fuel).map fun r => (r.ys, r.xsOut, r.error) :=
  rfl

/-! ## Output-array lemmas for the fixed-output mode -/

theorem getD_range_map (f : ℕ → ℚ) (n k : ℕ) :
    ((List.range n).map f).getD k 0 = if k < n then f k else 0 := by
  rw [List.getD_eq_getElem?_getD, List.getElem?_map]
  rcases lt_or_ge k n with h | h
  · rw [List.getElem?_range h]
    simp [h]
  · rw [List.getElem?_eq_none (by simpa using h)]
    simp [not_lt.mpr h]

theorem length_setSeg (ys : List ℚ) (s : ℕ) (v : List ℚ) :
    (setSeg ys s v).length = ys.length := by
  simp [setSeg]

theorem getD_setSeg (ys : List ℚ) (s : ℕ) (v : List ℚ) (k : ℕ) :
    (setSeg ys s v).getD k 0
      = if k < ys.length then
          (if s ≤ k ∧ k < s + v.length then v.getD (k - s) 0 else ys.getD k 0)
        else 0 := by
  simp only [setSeg]
  rw [getD_range_map]

theorem range_map_getD (v : List ℚ) (nd : ℕ) (hv : v.length = nd) :
    ((List.range nd).map fun i => v.getD i 0) = v := by
  apply List.ext_getElem
  · simp [hv]
  · intro i h1 h2
    simp only [List.getElem_map, List.getElem_range]
    rw [List.getD_eq_getElem?_getD, List.getElem?_eq_getElem h2]
    rfl

theorem row_setSeg_self (ys v : List ℚ) (nd j : ℕ) (hv : v.length = nd)
    (hb : j * nd + nd ≤ ys.length) :
    row (setSeg ys (j * nd) v) nd j = v := by
  have hpt : ∀ i ∈ List.range nd,
      (setSeg ys (j * nd) v).getD (j * nd + i) 0 = v.getD i 0 := by
    intro i hi
    rw [List.mem_range] at hi
    rw [getD_setSeg, if_pos (by omega), if_pos (by omega)]
    congr 1
    omega
  rw [row, List.map_congr_left hpt, range_map_getD v nd hv]

theorem row_setSeg_of_lt (ys v : List ℚ) (nd j j' : ℕ) (hj : j' < j) :
    row (setSeg ys (j * nd) v) nd j' = row ys nd j' := by
  have h1 : j' * nd + nd ≤ j * nd := by
    have h2 := Nat.mul_le_mul_right nd hj
    rwa [Nat.succ_mul] at h2
  unfold row
  apply List.map_congr_left
  intro i hi
  rw [List.mem_range] at hi
  rw [getD_setSeg]
  rcases lt_or_ge (j' * nd + i) ys.length with h | h
  · rw [if_pos h, if_neg ?_]
    rintro ⟨hle, -⟩
    exact absurd hle (Nat.not_le.mpr
      (Nat.lt_of_lt_of_le (Nat.add_lt_add_left hi _) h1))
  · rw [if_neg (not_lt.mpr h), List.getD_eq_getElem?_getD,
      List.getElem?_eq_none h]
    rfl

theorem interpolate_length (x : ℚ) (y f1 f3 f4 f5 f6 f7 : List ℚ) (h xnext : ℚ) (nd : ℕ) :
    (interpolate x y f1 f3 f4 f5 f6 f7 h xnext nd).length = nd := by
  simp [interpolate]

theorem trial_ynew_length (dydx : ℚ → List ℚ → List ℚ) (x h : ℚ) (y f1 : List ℚ) (nd : ℕ) :
    (trial dydx x h y f1 nd).ynew.length = nd := by
  simp [trial]

theorem fillLoop_length (x : ℚ) (y f1 f3 f4 f5 f6 f7 : List ℚ) (h xnew : ℚ)
    (ynew xsIn : List ℚ) (nd nx : ℕ) :
    ∀ (gas nc : ℕ) (ys : List ℚ),
      (fillLoop x y f1 f3 f4 f5 f6 f7 h xnew ynew xsIn nd nx nc ys gas).1.length
        = ys.length := by
  intro gas
  induction gas with
  | zero => intro nc ys; rfl
  | succ n ih =>
    intro nc ys
    simp only [fillLoop]
    split
    · split
      · rfl
      · rw [ih, length_setSeg]
    · rfl

theorem fillLoop_preserve (x : ℚ) (y f1 f3 f4 f5 f6 f7 : List ℚ) (h xnew : ℚ)
    (ynew xsIn : List ℚ) (nd nx : ℕ) :
    ∀ (gas nc : ℕ) (ys : List ℚ) (j : ℕ), j < nc →
      row (fillLoop x y f1 f3 f4 f5 f6 f7 h xnew ynew xsIn nd nx nc ys gas).1 nd j
        = row ys nd j := by
  intro gas
  induction gas with
  | zero => intro nc ys j hj; rfl
  | succ n ih =>
    intro nc ys j hj
    simp only [fillLoop]
    split
    · split
      · rfl
      · rw [ih _ _ j (by omega), row_setSeg_of_lt _ _ _ _ _ hj]
    · rfl

theorem fillLoop_rows (x : ℚ) (y f1 f3 f4 f5 f6 f7 : List ℚ) (h xnew : ℚ)
    (ynew xsIn : List ℚ) (nd nx : ℕ) (hv : ynew.length = nd) :
    ∀ (gas nc : ℕ) (ys : List ℚ), ys.length = nx * nd →
      ∀ j, nc ≤ j →
        j < (fillLoop x y f1 f3 f4 f5 f6 f7 h xnew ynew xsIn nd nx nc ys gas).2 →
        row (fillLoop x y f1 f3 f4 f5 f6 f7 h xnew ynew xsIn nd nx nc ys gas).1 nd j
          = if xsIn.getD j 0 = xnew then ynew
            else interpolate x y f1 f3 f4 f5 f6 f7 h (xsIn.getD j 0) nd := by
  intro gas
  induction gas with
  | zero =>
    intro nc ys hys j hj1 hj2
    simp only [fillLoop] at hj2
    omega
  | succ n ih =>
    intro nc ys hys j hj1 hj2
    simp only [fillLoop] at hj2 ⊢
    by_cases hnc : nc < nx
    · rw [if_pos hnc] at hj2 ⊢
      by_cases hbr : xnew - xsIn.getD nc 0 < 0
      · rw [if_pos hbr] at hj2 ⊢
        simp only at hj2
        omega
      · rw [if_neg hbr] at hj2 ⊢
        rcases Nat.eq_or_lt_of_le hj1 with heq | hlt
        · subst heq
          rw [fillLoop_preserve x y f1 f3 f4 f5 f6 f7 h xnew ynew xsIn nd nx
            n (nc + 1) _ nc (by omega)]
          rw [row_setSeg_self _ _ _ _ ?_ ?_]
          · split
            · rw [hv]
            · rw [interpolate_length]
          · have h2 := Nat.mul_le_mul_right nd hnc
            rw [Nat.succ_mul] at h2
            omega
        · exact ih (nc + 1) _ (by rw [length_setSeg, hys]) j hlt hj2
    · rw [if_neg hnc] at hj2 ⊢
      simp only at hj2
      omega

/-- In fixed-output mode one outer iteration never changes the length of the
preallocated output array. -/
theorem outerBody_ys_len (env : Env) (dydx : ℚ → List ℚ → List ℚ)
    (threshold relerr : ℚ) (nd nx : ℕ) (xsIn : List ℚ) (xend hmax : ℚ)
    (st : OuterState) (fuel : ℕ) (res : GoReturn ⊕ OuterState)
    (hb : outerBody env dydx threshold relerr nd nx xsIn xend hmax true st fuel = some res) :
    (∀ r l, res = .inl r → r.ys = some l → l.length = st.ys.length) ∧
    (∀ st1, res = .inr st1 → st1.ys.length = st.ys.length) := by
  simp only [outerBody] at hb
  split at hb
  · exact absurd hb (by simp)
  · injection hb with hb
    subst hb
    refine ⟨?_, ?_⟩
    · intro r l hr hl
      injection hr with hr
      subst hr
      cases hl
    · intro st1 hst1
      cases hst1
  · split at hb
    · injection hb with hb
      subst hb
      refine ⟨?_, ?_⟩
      · intro r l hr hl
        injection hr with hr
        subst hr
        injection hl with hl
        subst hl
        simp only [if_true]
        rw [fillLoop_length]
      · intro st1 hst1
        cases hst1
    · injection hb with hb
      subst hb
      refine ⟨?_, ?_⟩
      · intro r l hr hl
        cases hr
      · intro st1 hst1
        injection hst1 with hst1
        subst hst1
        simp only [if_true]
        rw [fillLoop_length]

/-- In fixed-output mode the whole loop returns a solution array of the
length it started with. -/
theorem outerLoop_ys_len (env : Env) (dydx : ℚ → List ℚ → List ℚ)
    (threshold relerr : ℚ) (nd nx : ℕ) (xsIn : List ℚ) (xend hmax : ℚ) :
    ∀ (fuel : ℕ) (st : OuterState) (r : GoReturn) (l : List ℚ),
      outerLoop env dydx threshold relerr nd nx xsIn xend hmax true st fuel = some r →
      r.ys = some l → l.length = st.ys.length := by
  intro fuel
  induction fuel with
  | zero =>
    intro st r l hr
    exact absurd hr (by simp [outerLoop])
  | succ n ih =>
    intro st r l hr hl
    simp only [outerLoop] at hr
    split at hr
    · exact absurd hr (by simp)
    · rename_i r' heq
      injection hr with hr
      subst hr
      exact (outerBody_ys_len env dydx threshold relerr nd nx xsIn xend hmax
        st (n + 1) _ heq).1 r' l rfl hl
    · rename_i st1 heq
      rw [ih st1 r l hr hl]
      exact (outerBody_ys_len env dydx threshold relerr nd nx xsIn xend hmax
        st (n + 1) _ heq).2 st1 rfl

/-- C6: In fixed-output mode (`len(xs) > 2`) a successful `ComputeWithStats`
returns a solution array of exactly `len(xs) * nd` entries, i.e. `len(xs)`
rows of `nd` values; and within the emission pass of an accepted step, every
requested grid point filled by the pass gets an exact copy of `ynew` when it
coincides with `xnew`, and the dense-output interpolant otherwise. -/
theorem C6_fixed_output :
    (∀ (self : Integrator) (env : Env) (dydx : ℚ → List ℚ → List ℚ) (y0 xs : List ℚ)
        (fuel : ℕ) (r : GoReturn) (l : List ℚ),
      2 < xs.length →
      self.ComputeWithStats env dydx y0 xs fuel = some r →
      r.ys = some l → l.length = xs.length * y0.length)
    ∧ (∀ (x : ℚ) (y f1 f3 f4 f5 f6 f7 : List ℚ) (h xnew : ℚ) (ynew xsIn : List ℚ)
        (nd nx gas nc : ℕ) (ys : List ℚ) (j : ℕ),
      ynew.length = nd → ys.length = nx * nd → nc ≤ j →
      j < (fillLoop x y f1 f3 f4 f5 f6 f7 h xnew ynew xsIn nd nx nc ys gas).2 →
      row (fillLoop x y f1 f3 f4 f5 f6 f7 h xnew ynew xsIn nd nx nc ys gas).1 nd j
        = if xsIn.getD j 0 = xnew then ynew
          else interpolate x y f1 f3 f4 f5 f6 f7 h (xsIn.getD j 0) nd) := by
  constructor
  · intro self env dydx y0 xs fuel r l hnx hrun hl
    simp only [Integrator.ComputeWithStats] at hrun
    split at hrun
    · exact absurd hrun (by simp)
    · rw [decide_eq_true hnx] at hrun
      simp only [if_pos rfl] at hrun
      have := outerLoop_ys_len _ _ _ _ _ _ _ _ _ _ _ _ _ hrun hl
      rw [this]
      simp [length_setSeg]
  · intro x y f1 f3 f4 f5 f6 f7 h xnew ynew xsIn nd nx gas nc ys j hv hys hj1 hj2
    exact fillLoop_rows x y f1 f3 f4 f5 f6 f7 h xnew ynew xsIn nd nx hv gas nc ys hys j hj1 hj2

/-- C6 witness: the constant-derivative run on the grid `[0, 1/2, 1]` returns
`3 = 3 * 1` values, and its emission pass copies `ynew` into the row of the
grid point `1 = xnew` while interpolating the interior point `1/2`. -/
theorem C6_fixed_output_witness :
    ([0, 1/2, 1] : List ℚ).length = ([0, 1/2, 1] : List ℚ).length * ([0] : List ℚ).length
    ∧ row (fillLoop 0 [0] [1] [1] [1] [1] [1] [1] 1 1 [1] [0, 1/2, 1] 1 3 1 [0, 0, 0] 3).1 1 2
      = (if ([0, 1/2, 1] : List ℚ).getD 2 0 = 1 then [1]
         else interpolate 0 [0] [1] [1] [1] [1] [1] [1] 1 (([0, 1/2, 1] : List ℚ).getD 2 0) 1) :=
  ⟨C6_fixed_output.1 ⟨cfgLoose⟩ envOne dydxConst [0] [0, 1/2, 1] 10
      ⟨some [0, 1/2, 1], some [0, 1/2, 1], some ⟨7, 0, 1⟩, none⟩ [0, 1/2, 1]
      (by decide) (by with_unfolding_all decide) rfl,
   C6_fixed_output.2 0 [0] [1] [1] [1] [1] [1] [1] 1 1 [1] [0, 1/2, 1] 1 3 3 1 [0, 0, 0] 2
      rfl (by decide) (by decide) (by with_unfolding_all decide)⟩

end dopri
